/-
Verification of the session/state-synchronization core of the Connections
Discord activity (server registry, alias index, completion ledger, bot
reconciliation loop, and the client-side guess classification and state
restoration logic).

The JavaScript sources are shallowly embedded: JS objects keyed by strings
become association lists (`List (String × α)`) with JS assignment semantics
(replace the first binding with the key, otherwise append), JS `Map`s become
the same, and each HTTP endpoint or polling pass becomes a pure function on an
explicit state, with network outcomes supplied as oracle arguments.
-/
import Mathlib

set_option autoImplicit false

namespace Connections

/-! ## Association lists with JavaScript object semantics

JS plain objects and `Map`s preserve insertion order for string keys;
`obj[k] = v` replaces the binding in place when `k` is present and appends
otherwise, `obj[k]` reads the binding, and `delete obj[k]` removes it. -/

/-- Read the binding for key `k` (JS `obj[k]`, `undefined` becomes `none`). -/
def lookupA {α : Type} (m : List (String × α)) (k : String) : Option α :=
  match m with
  | [] => none
  | kv :: rest => if kv.1 == k then some kv.2 else lookupA rest k

/-- Write the binding for key `k` (JS `obj[k] = v`): replace the first
binding with key `k`, append when absent. -/
def insertA {α : Type} (m : List (String × α)) (k : String) (v : α) :
    List (String × α) :=
  match m with
  | [] => [(k, v)]
  | kv :: rest => if kv.1 == k then (k, v) :: rest else kv :: insertA rest k v

/-- Delete the binding for key `k` (JS `delete obj[k]`). -/
def eraseA {α : Type} (m : List (String × α)) (k : String) : List (String × α) :=
  match m with
  | [] => []
  | kv :: rest => if kv.1 == k then rest else kv :: eraseA rest k

@[simp] theorem lookupA_nil {α : Type} (k : String) :
    lookupA ([] : List (String × α)) k = none := rfl

@[simp] theorem lookupA_cons {α : Type} (kv : String × α)
    (rest : List (String × α)) (k : String) :
    lookupA (kv :: rest) k = if kv.1 == k then some kv.2 else lookupA rest k := rfl

@[simp] theorem lookupA_insertA_self {α : Type} (m : List (String × α))
    (k : String) (v : α) : lookupA (insertA m k v) k = some v := by
  induction m with
  | nil => simp [insertA, lookupA]
  | cons kv rest ih =>
    by_cases h : kv.1 = k
    · simp [insertA, lookupA, h]
    · simp only [insertA, lookupA, beq_iff_eq, h, if_false, if_neg h]
      exact ih

theorem lookupA_insertA_ne {α : Type} (m : List (String × α))
    (k k' : String) (v : α) (h : k' ≠ k) :
    lookupA (insertA m k v) k' = lookupA m k' := by
  induction m with
  | nil =>
    simp only [insertA, lookupA_cons, lookupA_nil, beq_iff_eq]
    rw [if_neg (fun hh => h hh.symm)]
  | cons kv rest ih =>
    by_cases hk : kv.1 = k
    · subst hk
      simp only [insertA, beq_self_eq_true, if_true, lookupA_cons, beq_iff_eq]
      rw [if_neg (fun hh => h hh.symm), if_neg (fun hh => h hh.symm)]
    · simp only [insertA, beq_iff_eq, if_neg hk, lookupA_cons]
      by_cases hk' : kv.1 = k'
      · simp [hk']
      · simp only [beq_iff_eq, if_neg hk', ih]

theorem insertA_insertA {α : Type} (m : List (String × α)) (k : String)
    (v1 v2 : α) : insertA (insertA m k v1) k v2 = insertA m k v2 := by
  induction m with
  | nil => simp [insertA]
  | cons kv rest ih =>
    by_cases h : kv.1 = k
    · simp [insertA, h]
    · simp only [insertA, beq_iff_eq, if_neg h, ih]

/-- Keys of an association list. -/
def keysA {α : Type} (m : List (String × α)) : List String := m.map Prod.fst

@[simp] theorem keysA_nil {α : Type} : keysA ([] : List (String × α)) = [] := rfl

@[simp] theorem keysA_cons {α : Type} (kv : String × α) (rest : List (String × α)) :
    keysA (kv :: rest) = kv.1 :: keysA rest := rfl

theorem keysA_insertA {α : Type} (m : List (String × α)) (k : String) (v : α) :
    keysA (insertA m k v) = keysA m ∨ keysA (insertA m k v) = keysA m ++ [k] := by
  induction m with
  | nil => right; simp [insertA]
  | cons kv rest ih =>
    by_cases h : kv.1 = k
    · left; simp [insertA, h]
    · simp only [insertA, beq_iff_eq, if_neg h, keysA_cons]
      rcases ih with ih | ih
      · left; rw [ih]
      · right; rw [ih]; simp

theorem nodup_keysA_insertA {α : Type} (m : List (String × α)) (k : String)
    (v : α) (hm : (keysA m).Nodup) : (keysA (insertA m k v)).Nodup := by
  induction m with
  | nil => simp [insertA]
  | cons kv rest ih =>
    by_cases h : kv.1 = k
    · simpa [insertA, h] using hm
    · simp only [insertA, beq_iff_eq, if_neg h, keysA_cons, List.nodup_cons] at hm ⊢
      refine ⟨fun hmem => ?_, ih hm.2⟩
      rcases keysA_insertA rest k v with he | he
      · rw [he] at hmem; exact hm.1 hmem
      · rw [he] at hmem
        rcases List.mem_append.1 hmem with hmem2 | hmem2
        · exact hm.1 hmem2
        · exact h (by simpa using hmem2)

/-! ## Guess attempts

A guess attempt as stored in a player's guess history (client `recordGuess`):
`words` are the four selected words, `correct` the classification outcome,
`difficulty` the category index for a correct guess. The timestamp and the
per-word difficulty annotations are carried along by the code but never read
by the logic verified here, so they are omitted. -/

structure Guess where
  words : List String
  correct : Bool
  difficulty : Option Nat
deriving Repr, DecidableEq

/-! ## Bot reconciliation loop

Embedding of `checkSessionUpdates` (bot, multi-player version; the same
control flow appears twice in the sources: once as a standalone module taking
`client` and `activeSessions` as parameters and once inline in the bot file,
lines 372-496 of that file). The loop iterates over the bot's local
`activeSessions` map; per session it fetches the server copy, advances each
matching local player whose server guess count exceeds the locally cached
`lastGuessCount`, and if anything advanced it re-renders and edits the chat
message, after which it deletes the session when every player is terminal.

Network effects are supplied by oracles: `FetchOutcome` is the result of
`fetch` per session (an ok JSON body with the server player map, a non-ok
HTTP status, a body that fails to parse, or a thrown transport error), and an
`editOk` flag tells whether the message-edit block ran without throwing. -/

/-- Local per-player record in a bot session
(`{ userId, username, avatarUrl, guessHistory, lastGuessCount }`). -/
structure LocalPlayer where
  userId : String
  username : String
  avatarUrl : String
  guessHistory : List Guess
  lastGuessCount : Nat
deriving Repr, DecidableEq

/-- The bot's local session record; the fields not read by
`checkSessionUpdates` logic (channelId, messageId, interaction, puzzle
number) are omitted. -/
structure BotSession where
  players : List LocalPlayer
deriving Repr, DecidableEq

/-- A server player entry as returned by `GET /api/sessions/:sessionId`. -/
structure ServerPlayer where
  username : String
  guessHistory : List Guess
deriving Repr, DecidableEq

/-- Result of the per-session fetch in the polling loop. -/
inductive FetchOutcome where
  /-- 2xx response whose body parses to a session with this player map. -/
  | ok (players : List (String × ServerPlayer))
  /-- Non-ok HTTP status (404 included): the loop logs for statuses other
  than 404 and continues. -/
  | httpError (status : Nat)
  /-- Body that fails `JSON.parse`: caught, logged, and skipped. -/
  | parseError
  /-- The fetch promise rejected (transport failure): caught by the outer
  handler. -/
  | thrown
deriving Repr, DecidableEq

/-- Count of correct guesses
(`guesses.filter((g) => g.correct).length`). -/
def correctCount (guesses : List Guess) : Nat :=
  (guesses.filter (fun g => g.correct)).length

/-- Count of incorrect guesses
(`guesses.filter((g) => !g.correct).length`). -/
def mistakeCount (guesses : List Guess) : Nat :=
  (guesses.filter (fun g => !g.correct)).length

/-- Terminal test on a guess history: `correctCount === 4 || mistakeCount >= 4`. -/
def isTerminal (guesses : List Guess) : Bool :=
  correctCount guesses == 4 || mistakeCount guesses ≥ 4

/-- One server player applied to the local player list: the first local
player with the matching `userId` has its history and cached count advanced
when the server guess count strictly exceeds the cached count. Returns the
updated list and whether an update happened. -/
def applyServerPlayer (locals : List LocalPlayer) (userId : String)
    (sp : ServerPlayer) : List LocalPlayer × Bool :=
  match locals with
  | [] => ([], false)
  | p :: rest =>
    if p.userId == userId then
      if sp.guessHistory.length > p.lastGuessCount then
        ({ p with guessHistory := sp.guessHistory,
                  lastGuessCount := sp.guessHistory.length } :: rest, true)
      else (p :: rest, false)
    else
      let r := applyServerPlayer rest userId sp
      (p :: r.1, r.2)

/-- The `for (const userId in serverPlayers)` loop: fold every server player
entry into the local list, or-ing the per-player `hasUpdates` flags. -/
def applyServerPlayers (locals : List LocalPlayer)
    (server : List (String × ServerPlayer)) : List LocalPlayer × Bool :=
  match server with
  | [] => (locals, false)
  | (uid, sp) :: rest =>
    let r := applyServerPlayer locals uid sp
    let r2 := applyServerPlayers r.1 rest
    (r2.1, r.2 || r2.2)

/-- All players of a session terminal
(`session.players.every((player) => ...)`). -/
def allComplete (players : List LocalPlayer) : Bool :=
  players.all (fun p => isTerminal p.guessHistory)

/-- One session processed by a polling tick. `none` means the session was
deleted from `activeSessions`; `some s` is its surviving local state.
A thrown fetch lands in the outer catch, which deletes the session; a non-ok
status or a parse failure skips the session; on an ok fetch the local
players are advanced first, and only when something advanced is the edit
attempted — a throwing edit is caught and skips the completion check, while
a successful edit deletes the session exactly when the (already advanced)
player list is non-empty and all-terminal. -/
def processSession (session : BotSession) (fetch : FetchOutcome)
    (editOk : Bool) : Option BotSession :=
  match fetch with
  | .thrown => none
  | .httpError _ => some session
  | .parseError => some session
  | .ok serverPlayers =>
    let r := applyServerPlayers session.players serverPlayers
    let session2 : BotSession := { players := r.1 }
    if r.2 then
      if editOk then
        if allComplete session2.players && decide (session2.players.length > 0) then
          none
        else some session2
      else some session2
    else some session2

/-- One full polling tick of `checkSessionUpdates` over the bot's
`activeSessions` map (iterated in insertion order), with the per-session
fetch outcome and edit success supplied by oracles keyed on the session id. -/
def checkSessionUpdates (activeSessions : List (String × BotSession))
    (fetch : String → FetchOutcome) (editOk : String → Bool) :
    List (String × BotSession) :=
  activeSessions.filterMap (fun kv =>
    (processSession kv.2 (fetch kv.1) (editOk kv.1)).map (fun s => (kv.1, s)))

/-! ## Server state (server.js)

The three in-process stores of `server.js`: `activeSessions` (message-based
game sessions), `userToMessageSession` (the alias index from
`guildId_userId_date` keys to message session ids), and `gameState` (the
in-memory fallback completion store used when no MySQL pool is configured).
Timestamps (`Date.now()`) are passed in as `Nat` arguments. -/

/-- Player entry inside a message session
(`{ username, avatarUrl, guessHistory }`). -/
structure SessionPlayer where
  username : String
  avatarUrl : String
  guessHistory : List Guess
deriving Repr, DecidableEq

/-- An entry of `activeSessions`
(`{ guildId, channelId, messageId, players, lastUpdate }`, plus the
`launchRequested` flag read by the launch endpoint). -/
structure ActiveSession where
  guildId : String
  channelId : String
  messageId : String
  players : List (String × SessionPlayer)
  lastUpdate : Nat
  launchRequested : Bool
deriving Repr, DecidableEq

/-- A completed player record in the in-memory fallback store
(`gameState[guildId].players[userId]`). -/
structure PlayerResult where
  username : String
  avatar : String
  score : Nat
  mistakes : Nat
  guessHistory : List Guess
  completedAt : Nat
deriving Repr, DecidableEq

/-- Per-guild record of the in-memory fallback store
(`{ date, players }`). -/
structure GuildState where
  date : String
  players : List (String × PlayerResult)
deriving Repr, DecidableEq

/-- The mutable server stores. -/
structure ServerState where
  activeSessions : List (String × ActiveSession)
  userToMessageSession : List (String × String)
  gameState : List (String × GuildState)
deriving Repr, DecidableEq

/-- The server as it starts: every store empty. -/
def initialServerState : ServerState :=
  { activeSessions := [], userToMessageSession := [], gameState := [] }

/-- `POST /api/sessions/start` (server.js 272-288): unconditionally writes a
fresh session with an empty player map under `sessionId` and answers
`{ success: true, session }`; an existing entry under the same id is
replaced, never rejected. -/
def sessionsStart (st : ServerState) (sessionId guildId channelId : String)
    (now : Nat) : ServerState × ActiveSession :=
  let s : ActiveSession :=
    { guildId := guildId, channelId := channelId, messageId := sessionId,
      players := [], lastUpdate := now, launchRequested := false }
  ({ st with activeSessions := insertA st.activeSessions sessionId s }, s)

/-- The user session id built at join: `guildId_userId_date`. -/
def userSessionKey (guildId userId date : String) : String :=
  guildId ++ "_" ++ userId ++ "_" ++ date

/-- Response of the join endpoint. -/
inductive JoinResult where
  /-- 404 `Session not found`. -/
  | notFound
  /-- `{ success: true, userSessionId, messageSessionId }`. -/
  | ok (userSessionId messageSessionId : String)
deriving Repr, DecidableEq

/-- `POST /api/sessions/:messageSessionId/join` (server.js 291-321): 404 when
the session is absent (nothing written); otherwise the alias
`guildId_userId_date -> messageSessionId` is (over)written and a zero-progress
player entry is inserted only when the user is not yet in the session's
player map. -/
def sessionsJoin (st : ServerState) (messageSessionId userId username
    avatarUrl guildId date : String) : ServerState × JoinResult :=
  match lookupA st.activeSessions messageSessionId with
  | none => (st, .notFound)
  | some sess =>
    let userSessionId := userSessionKey guildId userId date
    let utms := insertA st.userToMessageSession userSessionId messageSessionId
    let freshPlayer : SessionPlayer :=
      { username := username, avatarUrl := avatarUrl, guessHistory := [] }
    let sess2 :=
      match lookupA sess.players userId with
      | some _ => sess
      | none => { sess with players := insertA sess.players userId freshPlayer }
    ({ st with
        activeSessions := insertA st.activeSessions messageSessionId sess2,
        userToMessageSession := utms },
      .ok userSessionId messageSessionId)

/-! ### Alias key parsing at the update endpoint

`POST /api/sessions/:userSessionId/update` recovers the user id with
`userSessionId.split("_")[1]`. JS `String.split` on a single-character
separator is embedded as `splitU` on the character list. -/

/-- JS `s.split("_")` on a character list. -/
def splitU (cs : List Char) : List (List Char) :=
  match cs with
  | [] => [[]]
  | c :: rest =>
    if c = '_' then [] :: splitU rest
    else (c :: (splitU rest).headD []) :: (splitU rest).tail

/-- `parts[1]` of `userSessionId.split("_")` (server.js 347-348). A key built
by the join endpoint always has at least two separators, so index 1 exists. -/
def extractUserId (userSessionId : String) : String :=
  String.mk ((splitU userSessionId.data).getD 1 [])

/-- Response of the update endpoint. -/
inductive UpdateResult where
  /-- 404 `User session not found` (no alias). -/
  | userSessionNotFound
  /-- 404 `Message session not found` (dangling alias). -/
  | messageSessionNotFound
  /-- 404 `Player not in session`. -/
  | playerNotFound
  /-- `{ success: true, messageSessionId, userId }`. -/
  | ok (messageSessionId userId : String)
deriving Repr, DecidableEq

/-- `POST /api/sessions/:userSessionId/update` (server.js 324-362): resolve
the alias, then the session, then the player extracted from the key; on
success replace that player's guess history wholesale and refresh
`lastUpdate`. -/
def sessionsUpdate (st : ServerState) (userSessionId : String)
    (guessHistory : List Guess) (now : Nat) : ServerState × UpdateResult :=
  match lookupA st.userToMessageSession userSessionId with
  | none => (st, .userSessionNotFound)
  | some messageSessionId =>
    match lookupA st.activeSessions messageSessionId with
    | none => (st, .messageSessionNotFound)
    | some messageSession =>
      let userId := extractUserId userSessionId
      match lookupA messageSession.players userId with
      | none => (st, .playerNotFound)
      | some p =>
        let sess2 := { messageSession with
          players := insertA messageSession.players userId
            { p with guessHistory := guessHistory },
          lastUpdate := now }
        ({ st with activeSessions := insertA st.activeSessions messageSessionId sess2 },
          .ok messageSessionId userId)

/-- `DELETE /api/sessions/:sessionId` (server.js 423-431): delete if present,
always `{ success: true }`. -/
def sessionsDelete (st : ServerState) (sessionId : String) : ServerState :=
  { st with activeSessions := eraseA st.activeSessions sessionId }

/-- `POST /api/sessions/:sessionId/launch` (server.js 404-420): read and
clear the `launchRequested` flag; an absent session answers `false`. -/
def sessionsLaunch (st : ServerState) (sessionId : String) : ServerState × Bool :=
  match lookupA st.activeSessions sessionId with
  | none => (st, false)
  | some s =>
    if s.launchRequested then
      let s2 := { s with launchRequested := false }
      ({ st with activeSessions := insertA st.activeSessions sessionId s2 }, true)
    else (st, false)

/-! ### Completion ledger -/

/-- The payload of one completion write
(`POST /api/gamestate/:guildId/:date/complete`). -/
structure CompletionWrite where
  guildId : String
  date : String
  userId : String
  username : String
  avatar : String
  score : Nat
  mistakes : Nat
  guessHistory : List Guess
  now : Nat
deriving Repr, DecidableEq

/-- The in-memory fallback branch of the completion endpoint
(server.js 248-263): reset the guild bucket when absent or recorded for a
different date, then write the player's record. -/
def memComplete (gameState : List (String × GuildState)) (w : CompletionWrite) :
    List (String × GuildState) :=
  let gs :=
    match lookupA gameState w.guildId with
    | some g => if g.date == w.date then g else { date := w.date, players := [] }
    | none => { date := w.date, players := [] }
  let rec2 : PlayerResult :=
    { username := w.username, avatar := w.avatar, score := w.score,
      mistakes := w.mistakes, guessHistory := w.guessHistory, completedAt := w.now }
  insertA gameState w.guildId { gs with players := insertA gs.players w.userId rec2 }

/-- `POST /api/gamestate/:guildId/:date/complete`, in-memory branch, as a
state transformer. -/
def gamestateComplete (st : ServerState) (w : CompletionWrite) : ServerState :=
  { st with gameState := memComplete st.gameState w }

/-- In-memory branch of `DELETE /api/gamestate/:guildId/:date/:userId`
(server.js 467-471). -/
def gamestateDeleteResult (st : ServerState) (guildId userId : String) :
    ServerState :=
  match lookupA st.gameState guildId with
  | none => st
  | some g =>
    let g2 := { g with players := eraseA g.players userId }
    { st with gameState := insertA st.gameState guildId g2 }

/-- A row of the `game_results` table. The schema of `initializeDatabase`
(server.js 80-95) declares `UNIQUE KEY unique_player_game
(guild_id, user_id, game_date)`; the auto-increment `id` is never selected
by any query and is omitted. -/
structure GameResultRow where
  guildId : String
  userId : String
  username : String
  avatar : String
  gameDate : String
  score : Nat
  mistakes : Nat
  guessHistory : List Guess
  completedAt : Nat
deriving Repr, DecidableEq

/-- The unique key of `game_results`. -/
def rowKey (r : GameResultRow) : String × String × String :=
  (r.guildId, r.userId, r.gameDate)

/-- The row written for a completion (insert values plus the
`completed_at` default `CURRENT_TIMESTAMP`). -/
def rowOf (w : CompletionWrite) : GameResultRow :=
  { guildId := w.guildId, userId := w.userId, username := w.username,
    avatar := w.avatar, gameDate := w.date, score := w.score,
    mistakes := w.mistakes, guessHistory := w.guessHistory, completedAt := w.now }

/-- The database branch of the completion endpoint (server.js 214-224):
`INSERT ... ON DUPLICATE KEY UPDATE` against the unique key
`(guild_id, user_id, game_date)`. Every non-key column appears in the UPDATE
list (`completed_at` is set to `CURRENT_TIMESTAMP`), so a duplicate-key write
turns the existing row into the incoming one in place; otherwise the row is
appended. -/
def dbUpsert (table : List GameResultRow) (r : GameResultRow) :
    List GameResultRow :=
  match table with
  | [] => [r]
  | r0 :: rest =>
    if rowKey r0 = rowKey r then r :: rest else r0 :: dbUpsert rest r

/-- A sequence of completion writes against the database table, starting
empty. -/
def dbApply (ws : List CompletionWrite) : List GameResultRow :=
  ws.foldl (fun t w => dbUpsert t (rowOf w)) []

/-- A sequence of completion writes against the in-memory store, starting
empty. -/
def memApply (ws : List CompletionWrite) : List (String × GuildState) :=
  ws.foldl memComplete []

/-- Number of table rows for a `(guildId, userId, gameDate)` key. -/
def dbCount (table : List GameResultRow) (k : String × String × String) : Nat :=
  (table.filter (fun r => rowKey r = k)).length

/-- Number of in-memory completion records for a `(guildId, userId, date)`
key: entries of a guild bucket recorded for `date` whose player map binds
`userId`. -/
def memCount (m : List (String × GuildState)) (g u d : String) : Nat :=
  ((m.filter (fun kv => kv.1 == g && kv.2.date == d)).map
    (fun kv => (kv.2.players.filter (fun pv => pv.1 == u)).length)).sum

/-! ### The server's mutating operations, for frame reasoning -/

/-- The mutating endpoints of server.js (in-memory mode), as one action
type. GET endpoints do not write and are omitted. -/
inductive ServerOp where
  | start (sessionId guildId channelId : String) (now : Nat)
  | join (messageSessionId userId username avatarUrl guildId date : String)
  | update (userSessionId : String) (guessHistory : List Guess) (now : Nat)
  | launch (sessionId : String)
  | endSession (sessionId : String)
  | complete (w : CompletionWrite)
  | deleteResult (guildId userId : String)
deriving Repr

/-- State effect of one operation. -/
def applyOp (st : ServerState) (op : ServerOp) : ServerState :=
  match op with
  | .start sid g c now => (sessionsStart st sid g c now).1
  | .join mid u un av g d => (sessionsJoin st mid u un av g d).1
  | .update usid gh now => (sessionsUpdate st usid gh now).1
  | .launch sid => (sessionsLaunch st sid).1
  | .endSession sid => sessionsDelete st sid
  | .complete w => gamestateComplete st w
  | .deleteResult g u => gamestateDeleteResult st g u

/-- Alias resolution as performed by the progress-update path:
`userToMessageSession[userSessionId]`. -/
def resolveAlias (st : ServerState) (userSessionId : String) : Option String :=
  lookupA st.userToMessageSession userSessionId

/-! ## Client puzzle model and guess classification

The client transforms the fetched NYT payload into
`{ group, members, difficulty }` categories. `handleSubmit` classifies a
submitted selection of 4 words: the selection is correct when some
not-yet-solved category has all its members selected; otherwise a mistake is
recorded and the near-miss hint fires when some not-yet-solved category has
exactly 3 of its members selected. -/

/-- A puzzle category (`{ group, members, difficulty }`). -/
structure Category where
  group : String
  members : List String
  difficulty : Nat
deriving Repr, DecidableEq

/-- The partition invariant of a loaded puzzle: 4 categories of 4 members
each, with all 16 member strings distinct (hence the categories are pairwise
disjoint). -/
def puzzleInvariant (categories : List Category) : Prop :=
  categories.length = 4 ∧ (∀ c ∈ categories, c.members.length = 4) ∧
    ((categories.map Category.members).flatten).Nodup

/-- Whether a category was already solved, as tested by `handleSubmit`
(`gameState.solvedCategories.some((solved) => solved.group === category.group)`). -/
def isSolvedCat (solvedCategories : List Category) (c : Category) : Bool :=
  solvedCategories.any (fun s => s.group == c.group)

/-- The matched category of a submission
(`gameData.categories.find((category) => ... category.members.every((member)
=> selected.has(member)))`). -/
def findMatchedCategory (categories solvedCategories : List Category)
    (selected : List String) : Option Category :=
  categories.find? (fun c =>
    !(isSolvedCat solvedCategories c) && c.members.all (fun m => selected.contains m))

/-- The near-miss test of the wrong-guess branch: some not-yet-solved
category has exactly 3 members among the selected words. -/
def isOneAway (categories solvedCategories : List Category)
    (selected : List String) : Bool :=
  categories.any (fun c =>
    !(isSolvedCat solvedCategories c) &&
      (c.members.filter (fun m => selected.contains m)).length == 3)

/-- The three visible outcomes of a submission. -/
inductive GuessOutcome where
  | correct
  | oneAway
  | plainIncorrect
deriving Repr, DecidableEq

/-- Outcome of `handleSubmit` for a selection of 4 words: the correct branch
when a category matches, otherwise the near-miss hint or the plain wrong
message. -/
def classifyGuess (categories solvedCategories : List Category)
    (selected : List String) : GuessOutcome :=
  match findMatchedCategory categories solvedCategories selected with
  | some _ => .correct
  | none =>
    if isOneAway categories solvedCategories selected then .oneAway
    else .plainIncorrect

/-! ## Client game state and restoration (game-state.js) -/

/-- The client game-state object (fields of the module-level `gameState`;
`sessionId` and `displayOrder` are never read by the restoration logic and
are omitted). -/
structure ClientState where
  selectedWords : List String
  solvedCategories : List Category
  guessHistory : List Guess
  mistakes : Nat
  maxMistakes : Nat
  isGameOver : Bool
  hasPlayed : Bool
deriving Repr, DecidableEq

/-- The body of the replay loop of `restoreFromGuessHistory` for one guess:
a correct guess pushes the first category all of whose members appear in the
guessed words (when one exists), an incorrect guess increments `mistakes`;
every guess is appended to the rebuilt history. -/
def replayGuess (gameData : List Category) (st : ClientState) (g : Guess) :
    ClientState :=
  if g.correct then
    match gameData.find? (fun cat => cat.members.all (fun m => g.words.contains m)) with
    | some cat =>
      { st with solvedCategories := st.solvedCategories ++ [cat],
                guessHistory := st.guessHistory ++ [g] }
    | none => { st with guessHistory := st.guessHistory ++ [g] }
  else
    { st with mistakes := st.mistakes + 1, guessHistory := st.guessHistory ++ [g] }

/-- `restoreFromGuessHistory(guessHistory)` (game-state.js 191-226): clear
the derived fields, replay every guess, then set `isGameOver` when 4
categories are recorded as solved or the mistake budget is reached. The
pre-existing `isGameOver` flag is not cleared by the reset step. -/
def restoreFromGuessHistory (gameData : List Category) (st : ClientState)
    (guessHistory : List Guess) : ClientState :=
  let st0 := { st with solvedCategories := [], mistakes := 0,
                       guessHistory := [], selectedWords := [] }
  let st1 := guessHistory.foldl (replayGuess gameData) st0
  if st1.solvedCategories.length == 4 || st1.mistakes ≥ st1.maxMistakes then
    { st1 with isGameOver := true }
  else st1

/-! ## Concrete fixtures -/

/-- An incorrect guess (one word from each category of the demo puzzle). -/
def gWrong : Guess := { words := ["A", "E", "I", "M"], correct := false, difficulty := none }

/-- A correct guess for the easiest demo category. -/
def gC0 : Guess := { words := ["A", "B", "C", "D"], correct := true, difficulty := some 0 }

/-- A correct guess for demo category 1. -/
def gC1 : Guess := { words := ["E", "F", "G", "H"], correct := true, difficulty := some 1 }

/-- A correct guess for demo category 2. -/
def gC2 : Guess := { words := ["I", "J", "K", "L"], correct := true, difficulty := some 2 }

/-- A correct guess for demo category 3. -/
def gC3 : Guess := { words := ["M", "N", "O", "P"], correct := true, difficulty := some 3 }

/-- A bot-session player with no progress observed yet. -/
def freshLocalPlayer : LocalPlayer :=
  { userId := "u1", username := "Alice", avatarUrl := "av",
    guessHistory := [], lastGuessCount := 0 }

/-- A server player entry carrying a finished history. -/
def doneServerPlayer : ServerPlayer :=
  { username := "Alice", guessHistory := [gC0, gC1, gC2, gC3] }

/-- A bot-session player that has finished the puzzle (4 correct guesses). -/
def doneLocalPlayer : LocalPlayer :=
  { userId := "u1", username := "Alice", avatarUrl := "av",
    guessHistory := [gC0, gC1, gC2, gC3], lastGuessCount := 4 }

/-! ## C1: reconciliation cursor safety -/

/-- Claim C1 (code_bug evidence): the multi-player `checkSessionUpdates`
advances the locally cached `lastGuessCount` in the diff phase, before the
chat-message edit is attempted, and a failing edit does not roll it back.
Here a session holding one player with no observed guesses polls a server
copy with one (incorrect) guess while the edit throws: the surviving local
state nevertheless carries `lastGuessCount = 1` and the fetched history, so
the next tick sees no outstanding delta and the claimed re-attempt never
happens. The claim (spec P5) requires the counter to stay at its pre-tick
value 0 on a failed edit. -/
theorem cursor_advanced_despite_failed_edit :
    checkSessionUpdates [("C", { players := [freshLocalPlayer] })]
        (fun _ => .ok [("u1", { username := "Alice", guessHistory := [gWrong] })])
        (fun _ => false) =
      [("C", { players := [{ freshLocalPlayer with
        guessHistory := [gWrong], lastGuessCount := 1 }] })] ∧
    freshLocalPlayer.lastGuessCount = 0 := by
  constructor
  · rfl
  · rfl

/-! ## C2: reconciliation error handling -/

/-- Claim C2 counterexample: the code does the opposite of the claim on both
counts. A session whose fetch throws a transport error is deleted from the
polling set by the outer catch handler, and a session whose fetch reports
HTTP 404 is kept (the not-ok branch just continues). -/
theorem fetch_error_handling_counterexample :
    checkSessionUpdates [("A", { players := [freshLocalPlayer] })]
        (fun _ => .thrown) (fun _ => true) = [] ∧
    checkSessionUpdates [("D", { players := [freshLocalPlayer] })]
        (fun _ => .httpError 404) (fun _ => true) =
      [("D", { players := [freshLocalPlayer] })] := by
  constructor
  · rfl
  · rfl

/-- Claim C2 (amended): during a reconciliation tick, a non-ok HTTP response
(404 included) or an unparseable body while fetching leaves the session in
the active polling set, as does a failing message edit (whose diff-phase
player updates are kept); a thrown transport error while processing a
session removes exactly that session from the local polling set. -/
theorem fetch_error_handling (sessions : List (String × BotSession))
    (fetch : String → FetchOutcome) (editOk : String → Bool) (sid : String) :
    (∀ s n, (sid, s) ∈ sessions → fetch sid = .httpError n →
      (sid, s) ∈ checkSessionUpdates sessions fetch editOk) ∧
    (∀ s, (sid, s) ∈ sessions → fetch sid = .parseError →
      (sid, s) ∈ checkSessionUpdates sessions fetch editOk) ∧
    (∀ s sp, (sid, s) ∈ sessions → fetch sid = .ok sp → editOk sid = false →
      (sid, { players := (applyServerPlayers s.players sp).1 }) ∈
        checkSessionUpdates sessions fetch editOk) ∧
    (fetch sid = .thrown → ∀ s,
      (sid, s) ∉ checkSessionUpdates sessions fetch editOk) := by
  refine ⟨?_, ?_, ?_, ?_⟩
  · intro s n hmem hf
    refine List.mem_filterMap.2 ⟨(sid, s), hmem, ?_⟩
    simp [processSession, hf]
  · intro s hmem hf
    refine List.mem_filterMap.2 ⟨(sid, s), hmem, ?_⟩
    simp [processSession, hf]
  · intro s sp hmem hf he
    refine List.mem_filterMap.2 ⟨(sid, s), hmem, ?_⟩
    simp only [processSession, hf, he]
    by_cases hu : (applyServerPlayers s.players sp).2
    · simp [hu]
    · simp only [Bool.not_eq_true] at hu
      simp [hu]
  · intro hf s hmem
    rcases List.mem_filterMap.1 hmem with ⟨kv, _, heq⟩
    rcases Option.map_eq_some'.1 heq with ⟨s2, hps, hpair⟩
    have hkv1 : kv.1 = sid := (Prod.mk.injEq _ _ _ _ ▸ hpair).1
    rw [hkv1, hf] at hps
    simp [processSession] at hps

/-- Witness for the C2 theorem at a concrete tick: a 404 answer leaves the
session in the set and a thrown fetch removes it. -/
theorem fetch_error_handling_witness :
    ("D", BotSession.mk [freshLocalPlayer]) ∈
      checkSessionUpdates [("D", { players := [freshLocalPlayer] })]
        (fun _ => .httpError 404) (fun _ => true) ∧
    ("A", BotSession.mk [freshLocalPlayer]) ∉
      checkSessionUpdates [("A", { players := [freshLocalPlayer] })]
        (fun _ => .thrown) (fun _ => true) := by
  constructor
  · exact (fetch_error_handling [("D", { players := [freshLocalPlayer] })]
      (fun _ => .httpError 404) (fun _ => true) "D").1
      { players := [freshLocalPlayer] } 404 (by simp) rfl
  · exact (fetch_error_handling [("A", { players := [freshLocalPlayer] })]
      (fun _ => .thrown) (fun _ => true) "A").2.2.2 rfl
      { players := [freshLocalPlayer] }

/-! ## C3: session completion removal -/

/-- Claim C3 counterexample: removal from the bot's active set is not
equivalent to "non-empty and all players terminal". A session whose single
player has an empty (non-terminal) history is removed when its fetch throws,
and a session whose single player is terminal survives a tick in which the
server reports no new guesses (the completion check only runs after an
observed update). -/
theorem session_completion_removal_counterexample :
    (checkSessionUpdates [("E", { players := [freshLocalPlayer] })]
        (fun _ => .thrown) (fun _ => true) = [] ∧
      allComplete [freshLocalPlayer] = false) ∧
    (checkSessionUpdates [("F", { players := [doneLocalPlayer] })]
        (fun _ => .ok [("u1", doneServerPlayer)])
        (fun _ => true) = [("F", { players := [doneLocalPlayer] })] ∧
      allComplete [doneLocalPlayer] = true) := by
  exact ⟨⟨rfl, rfl⟩, ⟨rfl, rfl⟩⟩

/-- Claim C3 (amended): a session is removed by the reconciliation step
exactly when its processing throws (transport failure), or its fetch
succeeded, some player's guess count advanced, the message edit succeeded,
and the freshly advanced player list is non-empty with every player terminal
(4 correct guesses or at least 4 incorrect ones); in particular an
all-terminal session is kept by a tick that observes no new guesses. -/
theorem processSession_removal_characterization (session : BotSession)
    (fetch : FetchOutcome) (editOk : Bool) :
    processSession session fetch editOk = none ↔
      (fetch = .thrown ∨ ∃ sp, fetch = .ok sp ∧
        (applyServerPlayers session.players sp).2 = true ∧ editOk = true ∧
        allComplete (applyServerPlayers session.players sp).1 = true ∧
        (applyServerPlayers session.players sp).1.length > 0) := by
  cases fetch with
  | thrown => simp [processSession]
  | httpError n => simp [processSession]
  | parseError => simp [processSession]
  | ok sp =>
    simp only [processSession]
    by_cases hu : (applyServerPlayers session.players sp).2
    · by_cases he : editOk
      · by_cases hc : (allComplete (applyServerPlayers session.players sp).1 &&
            decide ((applyServerPlayers session.players sp).1.length > 0)) = true
        · simp only [Bool.and_eq_true, decide_eq_true_eq] at hc
          simp [hu, he, hc.1, hc.2]
        · simp only [Bool.and_eq_true, decide_eq_true_eq, not_and] at hc
          by_cases hac : allComplete (applyServerPlayers session.players sp).1 = true
          · simp [hu, he, hac, hc hac]
          · simp [hu, he, hac]
      · simp [hu, he]
    · simp only [Bool.not_eq_true] at hu
      simp [hu]

/-- Witness for the C3 characterization: a terminal one-player session whose
fetch reports a fifth guess and whose edit succeeds is removed. -/
theorem processSession_removal_characterization_witness :
    processSession { players := [freshLocalPlayer] }
      (.ok [("u1", doneServerPlayer)]) true = none := by
  exact (processSession_removal_characterization { players := [freshLocalPlayer] }
    (.ok [("u1", doneServerPlayer)])
    true).2 (Or.inr ⟨_, rfl, by decide, rfl, by decide, by decide⟩)

/-! ## C4: duplicate session creation -/

/-- The session value written by the start endpoint. -/
def freshSession (sessionId guildId channelId : String) (now : Nat) : ActiveSession :=
  { guildId := guildId, channelId := channelId, messageId := sessionId,
    players := [], lastUpdate := now, launchRequested := false }

/-- Server registry after `POST /api/sessions/start` for session `S`. -/
def stS0 : ServerState := (sessionsStart initialServerState "S" "G" "C" 0).1

/-- Registry after player `u1` joined session `S`. -/
def stS1 : ServerState :=
  (sessionsJoin stS0 "S" "u1" "Alice" "av" "G" "2025-10-02").1

/-- Registry after a second `POST /api/sessions/start` for the same `S`. -/
def stS2 : ServerState := (sessionsStart stS1 "S" "G" "C" 5).1

/-- Claim C4 counterexample: a second `POST /api/sessions/start` with an
already-registered sessionId is not rejected — it replaces the entry and
discards the joined players. Before the duplicate call, session `S` holds
player `u1`; after it, the same key holds a fresh session with an empty
player map (and the endpoint answered success, as it always does). -/
theorem createSession_duplicate_counterexample :
    (lookupA stS1.activeSessions "S").map ActiveSession.players =
      some [("u1", { username := "Alice", avatarUrl := "av", guessHistory := [] })] ∧
    (lookupA stS2.activeSessions "S").map ActiveSession.players = some [] ∧
    (sessionsStart stS1 "S" "G" "C" 5).2 = freshSession "S" "G" "C" 5 := by
  exact ⟨rfl, rfl, rfl⟩

/-- Claim C4 (amended): `POST /api/sessions/start` never rejects. It always
answers success with a fresh empty-player session, writing it under
`sessionId` — replacing (not preserving) any existing entry — and leaves
every other registry key and the alias index untouched. Duplicate avoidance
is the caller's job (the bot checks its own local map before posting). -/
theorem sessionsStart_overwrites (st : ServerState)
    (sid g c : String) (now : Nat) :
    (sessionsStart st sid g c now).2 = freshSession sid g c now ∧
    lookupA (sessionsStart st sid g c now).1.activeSessions sid =
      some (freshSession sid g c now) ∧
    (sessionsStart st sid g c now).1.userToMessageSession =
      st.userToMessageSession ∧
    ∀ k, k ≠ sid →
      lookupA (sessionsStart st sid g c now).1.activeSessions k =
        lookupA st.activeSessions k := by
  refine ⟨rfl, ?_, rfl, ?_⟩
  · exact lookupA_insertA_self st.activeSessions sid (freshSession sid g c now)
  · intro k hk
    exact lookupA_insertA_ne st.activeSessions sid k (freshSession sid g c now) hk

/-- Witness for the C4 theorem: re-starting `S` over `stS1` yields the fresh
session and leaves an unrelated key unchanged. -/
theorem sessionsStart_overwrites_witness :
    lookupA stS2.activeSessions "S" = some (freshSession "S" "G" "C" 5) ∧
    lookupA stS2.activeSessions "T" = lookupA stS1.activeSessions "T" := by
  exact ⟨(sessionsStart_overwrites stS1 "S" "G" "C" 5).2.1,
    (sessionsStart_overwrites stS1 "S" "G" "C" 5).2.2.2 "T" (by decide)⟩

/-! ## C6: player join semantics -/

/-- Claim C6: joining an absent session answers 404 and changes nothing;
joining an existing session inserts a zero-progress entry (empty guess
history) for a new player; a rejoin leaves the session record — the player's
stored entry and accumulated history included — exactly as it was. -/
theorem playerJoin_semantics (st : ServerState) (sid u un av g d : String) :
    (lookupA st.activeSessions sid = none →
      sessionsJoin st sid u un av g d = (st, JoinResult.notFound)) ∧
    (∀ sess, lookupA st.activeSessions sid = some sess →
      lookupA sess.players u = none →
      (sessionsJoin st sid u un av g d).2 = .ok (userSessionKey g u d) sid ∧
      ∃ sess2,
        lookupA (sessionsJoin st sid u un av g d).1.activeSessions sid = some sess2 ∧
        lookupA sess2.players u =
          some { username := un, avatarUrl := av, guessHistory := [] }) ∧
    (∀ sess p, lookupA st.activeSessions sid = some sess →
      lookupA sess.players u = some p →
      (sessionsJoin st sid u un av g d).2 = .ok (userSessionKey g u d) sid ∧
      lookupA (sessionsJoin st sid u un av g d).1.activeSessions sid = some sess) := by
  refine ⟨?_, ?_, ?_⟩
  · intro hnone
    unfold sessionsJoin
    rw [hnone]
  · intro sess hsome hpnone
    unfold sessionsJoin
    rw [hsome]
    dsimp only
    rw [hpnone]
    exact ⟨rfl, _, lookupA_insertA_self _ _ _, lookupA_insertA_self _ _ _⟩
  · intro sess p hsome hpsome
    unfold sessionsJoin
    rw [hsome]
    dsimp only
    rw [hpsome]
    exact ⟨rfl, lookupA_insertA_self _ _ _⟩

/-- Witness for the C6 theorem: joining the fresh session `S` registers the
zero-progress entry, and joining a session id unknown to the registry is a
404 that leaves the state untouched. -/
theorem playerJoin_semantics_witness :
    ((sessionsJoin stS0 "S" "u1" "Alice" "av" "G" "2025-10-02").2 =
      .ok (userSessionKey "G" "u1" "2025-10-02") "S" ∧
     ∃ sess2, lookupA stS1.activeSessions "S" = some sess2 ∧
       lookupA sess2.players "u1" =
         some { username := "Alice", avatarUrl := "av", guessHistory := [] }) ∧
    sessionsJoin initialServerState "X" "u1" "Alice" "av" "G" "2025-10-02" =
      (initialServerState, JoinResult.notFound) := by
  refine ⟨?_, ?_⟩
  · exact (playerJoin_semantics stS0 "S" "u1" "Alice" "av" "G" "2025-10-02").2.1
      (freshSession "S" "G" "C" 0) (by decide) (by decide)
  · exact (playerJoin_semantics initialServerState "X" "u1" "Alice" "av" "G"
      "2025-10-02").1 (by decide)

/-! ## C8: alias resolution round-trip -/

theorem sessionsUpdate_alias_frame (st : ServerState) (usid : String)
    (gh : List Guess) (now : Nat) :
    (sessionsUpdate st usid gh now).1.userToMessageSession =
      st.userToMessageSession := by
  unfold sessionsUpdate
  split
  · rfl
  · split
    · rfl
    · dsimp only
      split
      · rfl
      · rfl

theorem sessionsLaunch_alias_frame (st : ServerState) (sid : String) :
    (sessionsLaunch st sid).1.userToMessageSession = st.userToMessageSession := by
  unfold sessionsLaunch
  split
  · rfl
  · split
    · rfl
    · rfl

theorem gamestateDeleteResult_alias_frame (st : ServerState) (g u : String) :
    (gamestateDeleteResult st g u).userToMessageSession =
      st.userToMessageSession := by
  unfold gamestateDeleteResult
  split
  · rfl
  · rfl

/-- Claim C8: a successful join writes the alias
`guildId_userId_date -> messageSessionId`, so the progress-update path's
resolution of that key yields the joined session; and across every mutating
server operation, the resolved value for a key is unchanged unless the
operation is a (successful) join computing exactly that key, in which case it
now resolves to that join's session — i.e. only a later join for the same
player key overwrites the alias. -/
theorem alias_resolution_roundtrip :
    (∀ st sid u un av g d st2 r, sessionsJoin st sid u un av g d = (st2, r) →
      r ≠ JoinResult.notFound →
      resolveAlias st2 (userSessionKey g u d) = some sid) ∧
    (∀ st op k, resolveAlias (applyOp st op) k = resolveAlias st k ∨
      ∃ sid u un av g d, op = ServerOp.join sid u un av g d ∧
        k = userSessionKey g u d ∧
        resolveAlias (applyOp st op) k = some sid) := by
  constructor
  · intro st sid u un av g d st2 r heq hr
    cases hl : lookupA st.activeSessions sid with
    | none =>
      unfold sessionsJoin at heq
      rw [hl] at heq
      exact absurd (congrArg Prod.snd heq).symm (by simpa using hr)
    | some sess =>
      have hst2 : st2 = (sessionsJoin st sid u un av g d).1 :=
        (congrArg Prod.fst heq).symm
      rw [hst2]
      unfold sessionsJoin
      rw [hl]
      dsimp only
      cases lookupA sess.players u with
      | none => exact lookupA_insertA_self _ _ _
      | some p => exact lookupA_insertA_self _ _ _
  · intro st op k
    cases op with
    | start sid g c now => left; rfl
    | update usid gh now =>
      left
      show lookupA (sessionsUpdate st usid gh now).1.userToMessageSession k = _
      rw [sessionsUpdate_alias_frame]
      rfl
    | launch sid =>
      left
      show lookupA (sessionsLaunch st sid).1.userToMessageSession k = _
      rw [sessionsLaunch_alias_frame]
      rfl
    | endSession sid => left; rfl
    | complete w => left; rfl
    | deleteResult g u =>
      left
      show lookupA (gamestateDeleteResult st g u).userToMessageSession k = _
      rw [gamestateDeleteResult_alias_frame]
      rfl
    | join sid u un av g d =>
      cases hl : lookupA st.activeSessions sid with
      | none =>
        left
        show lookupA (sessionsJoin st sid u un av g d).1.userToMessageSession k = _
        unfold sessionsJoin
        rw [hl]
        rfl
      | some sess =>
        by_cases hk : k = userSessionKey g u d
        · right
          refine ⟨sid, u, un, av, g, d, rfl, hk, ?_⟩
          show lookupA (sessionsJoin st sid u un av g d).1.userToMessageSession k = _
          unfold sessionsJoin
          rw [hl]
          dsimp only
          cases lookupA sess.players u with
          | none => rw [hk]; exact lookupA_insertA_self _ _ _
          | some p => rw [hk]; exact lookupA_insertA_self _ _ _
        · left
          show lookupA (sessionsJoin st sid u un av g d).1.userToMessageSession k = _
          unfold sessionsJoin
          rw [hl]
          dsimp only
          cases lookupA sess.players u with
          | none => exact lookupA_insertA_ne _ _ _ _ hk
          | some p => exact lookupA_insertA_ne _ _ _ _ hk

/-- Witness for the C8 theorem: after the concrete join of `u1` into `S`,
resolving `G_u1_2025-10-02` the way the update endpoint does yields `S`. -/
theorem alias_resolution_roundtrip_witness :
    resolveAlias stS1 (userSessionKey "G" "u1" "2025-10-02") = some "S" := by
  exact alias_resolution_roundtrip.1 stS0 "S" "u1" "Alice" "av" "G" "2025-10-02"
    stS1 (.ok (userSessionKey "G" "u1" "2025-10-02") "S") rfl (by decide)

/-! ## C7: completion ledger uniqueness and idempotent upsert -/

@[simp] theorem insertA_nil {α : Type} (k : String) (v : α) :
    insertA ([] : List (String × α)) k v = [(k, v)] := rfl

@[simp] theorem insertA_cons {α : Type} (kv : String × α)
    (rest : List (String × α)) (k : String) (v : α) :
    insertA (kv :: rest) k v =
      if kv.1 == k then (k, v) :: rest else kv :: insertA rest k v := rfl

/-- Pairwise-distinct unique keys, the shape the `UNIQUE KEY` constraint
keeps the table in. -/
def dbKeysDistinct (table : List GameResultRow) : Prop :=
  table.Pairwise (fun r1 r2 => rowKey r1 ≠ rowKey r2)

theorem mem_dbUpsert {table : List GameResultRow} {r b : GameResultRow}
    (hb : b ∈ dbUpsert table r) : b = r ∨ b ∈ table := by
  induction table with
  | nil =>
    simp only [dbUpsert, List.mem_singleton] at hb
    exact Or.inl hb
  | cons r0 rest ih =>
    simp only [dbUpsert] at hb
    by_cases h : rowKey r0 = rowKey r
    · rw [if_pos h] at hb
      rcases List.mem_cons.1 hb with hb | hb
      · exact Or.inl hb
      · exact Or.inr (List.mem_cons_of_mem _ hb)
    · rw [if_neg h] at hb
      rcases List.mem_cons.1 hb with hb | hb
      · exact Or.inr (hb ▸ List.mem_cons_self _ _)
      · rcases ih hb with hb | hb
        · exact Or.inl hb
        · exact Or.inr (List.mem_cons_of_mem _ hb)

theorem dbKeysDistinct_dbUpsert {table : List GameResultRow}
    (r : GameResultRow) (ht : dbKeysDistinct table) :
    dbKeysDistinct (dbUpsert table r) := by
  induction table with
  | nil => simp [dbUpsert, dbKeysDistinct]
  | cons r0 rest ih =>
    rcases (List.pairwise_cons.1 ht) with ⟨hhead, htail⟩
    by_cases h : rowKey r0 = rowKey r
    · show dbKeysDistinct (if rowKey r0 = rowKey r then r :: rest else _)
      rw [if_pos h]
      exact List.pairwise_cons.2 ⟨fun b hb => h ▸ hhead b hb, htail⟩
    · show dbKeysDistinct (if rowKey r0 = rowKey r then _ else r0 :: dbUpsert rest r)
      rw [if_neg h]
      refine List.pairwise_cons.2 ⟨fun b hb => ?_, ih htail⟩
      rcases mem_dbUpsert hb with hb | hb
      · exact hb ▸ h
      · exact hhead b hb

theorem dbKeysDistinct_foldl (ws : List CompletionWrite)
    (table : List GameResultRow) (ht : dbKeysDistinct table) :
    dbKeysDistinct (ws.foldl (fun t w => dbUpsert t (rowOf w)) table) := by
  induction ws generalizing table with
  | nil => exact ht
  | cons w rest ih => exact ih _ (dbKeysDistinct_dbUpsert _ ht)

theorem dbCount_le_one {table : List GameResultRow}
    (ht : dbKeysDistinct table) (k : String × String × String) :
    dbCount table k ≤ 1 := by
  induction table with
  | nil => simp [dbCount]
  | cons r0 rest ih =>
    rcases (List.pairwise_cons.1 ht) with ⟨hhead, htail⟩
    by_cases h : rowKey r0 = k
    · have hrest : (rest.filter fun r => rowKey r = k).length = 0 := by
        rw [List.length_eq_zero, List.filter_eq_nil_iff]
        intro b hb
        simp only [decide_eq_true_eq]
        exact fun hk => hhead b hb (h.trans hk.symm)
      simp only [dbCount, List.filter_cons, decide_eq_true_eq, h, if_pos trivial]
      simp only [List.length_cons]
      omega
    · simp only [dbCount, List.filter_cons, decide_eq_true_eq, h]
      simpa [dbCount] using ih htail

theorem dbUpsert_dbUpsert (table : List GameResultRow) (r1 r2 : GameResultRow)
    (hk : rowKey r1 = rowKey r2) :
    dbUpsert (dbUpsert table r1) r2 = dbUpsert table r2 := by
  induction table with
  | nil => simp [dbUpsert, hk]
  | cons r0 rest ih =>
    by_cases h : rowKey r0 = rowKey r1
    · simp only [dbUpsert, if_pos h, if_pos hk, if_pos (h.trans hk)]
    · have h2 : ¬ rowKey r0 = rowKey r2 := fun hc => h (hc.trans hk.symm)
      simp only [dbUpsert, if_neg h, if_neg h2, ih]

/-- The shape the in-memory fallback store always has: guild keys are
distinct and each guild's player map has distinct keys. -/
def memInvariant (m : List (String × GuildState)) : Prop :=
  (keysA m).Nodup ∧ ∀ kv ∈ m, (keysA kv.2.players).Nodup

theorem mem_insertA {α : Type} {m : List (String × α)} {k : String} {v : α}
    {kv : String × α} (h : kv ∈ insertA m k v) : kv = (k, v) ∨ kv ∈ m := by
  induction m with
  | nil =>
    simp only [insertA_nil, List.mem_singleton] at h
    exact Or.inl h
  | cons kv0 rest ih =>
    simp only [insertA_cons] at h
    by_cases h0 : kv0.1 = k
    · simp only [h0, beq_self_eq_true, if_true] at h
      rcases List.mem_cons.1 h with h | h
      · exact Or.inl h
      · exact Or.inr (List.mem_cons_of_mem _ h)
    · simp only [beq_iff_eq, h0, if_false] at h
      rcases List.mem_cons.1 h with h | h
      · exact Or.inr (h ▸ List.mem_cons_self _ _)
      · rcases ih h with h | h
        · exact Or.inl h
        · exact Or.inr (List.mem_cons_of_mem _ h)

theorem lookupA_mem {α : Type} {m : List (String × α)} {k : String} {v : α}
    (h : lookupA m k = some v) : (k, v) ∈ m := by
  induction m with
  | nil => simp at h
  | cons kv rest ih =>
    simp only [lookupA_cons] at h
    by_cases h0 : kv.1 = k
    · simp only [h0, beq_self_eq_true, if_true, Option.some.injEq] at h
      have : kv = (k, v) := Prod.ext h0 h
      exact this ▸ List.mem_cons_self _ _
    · simp only [beq_iff_eq, h0, if_false] at h
      exact List.mem_cons_of_mem _ (ih h)

theorem memInvariant_memComplete {m : List (String × GuildState)}
    (w : CompletionWrite) (hm : memInvariant m) :
    memInvariant (memComplete m w) := by
  unfold memComplete
  constructor
  · exact nodup_keysA_insertA _ _ _ hm.1
  · intro kv hkv
    rcases mem_insertA hkv with hkv | hkv
    · rw [hkv]
      cases hL : lookupA m w.guildId with
      | none => simp [hL]
      | some g0 =>
        by_cases hdate : g0.date == w.date
        · simp only [hL, hdate, if_true]
          exact nodup_keysA_insertA _ _ _ (hm.2 (w.guildId, g0) (lookupA_mem hL))
        · simp only [hL, Bool.not_eq_true] at hdate
          simp [hL, hdate]
    · exact hm.2 kv hkv

theorem memInvariant_foldl (ws : List CompletionWrite)
    (m : List (String × GuildState)) (hm : memInvariant m) :
    memInvariant (ws.foldl memComplete m) := by
  induction ws generalizing m with
  | nil => exact hm
  | cons w rest ih => exact ih _ (memInvariant_memComplete w hm)

theorem assoc_filter_key_le_one {α : Type} {m : List (String × α)}
    (hm : (keysA m).Nodup) (u : String) :
    (m.filter (fun pv => pv.1 == u)).length ≤ 1 := by
  induction m with
  | nil => simp
  | cons kv rest ih =>
    simp only [keysA_cons, List.nodup_cons] at hm
    by_cases h : kv.1 = u
    · have hrest : (rest.filter (fun pv => pv.1 == u)) = [] := by
        rw [List.filter_eq_nil_iff]
        intro b hb
        simp only [beq_iff_eq]
        intro hbu
        have hmem : b.1 ∈ keysA rest := List.mem_map_of_mem Prod.fst hb
        rw [hbu, ← h] at hmem
        exact hm.1 hmem
      simp [List.filter_cons, h, hrest]
    · simp only [List.filter_cons, beq_iff_eq, h, if_false]
      exact ih hm.2

theorem memCount_eq_zero_of_not_mem {m : List (String × GuildState)}
    {g : String} (hg : g ∉ keysA m) (u d : String) : memCount m g u d = 0 := by
  induction m with
  | nil => simp [memCount]
  | cons kv rest ih =>
    simp only [keysA_cons, List.mem_cons, not_or] at hg
    have hne : (kv.1 == g) = false := by
      simp only [beq_eq_false_iff_ne]
      exact fun hc => hg.1 hc.symm
    have hstep : memCount (kv :: rest) g u d = memCount rest g u d := by
      simp [memCount, List.filter_cons, hne]
    rw [hstep]
    exact ih hg.2

theorem memCount_le_one {m : List (String × GuildState)}
    (hm : memInvariant m) (g u d : String) : memCount m g u d ≤ 1 := by
  induction m with
  | nil => simp [memCount]
  | cons kv rest ih =>
    have hkeys := hm.1
    simp only [keysA_cons, List.nodup_cons] at hkeys
    have hminv : memInvariant rest :=
      ⟨hkeys.2, fun kv2 h2 => hm.2 kv2 (List.mem_cons_of_mem _ h2)⟩
    by_cases hp : (kv.1 == g && kv.2.date == d) = true
    · have hg : kv.1 = g := by
        simp only [Bool.and_eq_true, beq_iff_eq] at hp
        exact hp.1
      have hzero : memCount rest g u d = 0 :=
        memCount_eq_zero_of_not_mem (fun hc => hkeys.1 (hg ▸ hc)) u d
      have hplayers : (kv.2.players.filter (fun pv => pv.1 == u)).length ≤ 1 :=
        assoc_filter_key_le_one (hm.2 kv (List.mem_cons_self _ _)) u
      have hstep : memCount (kv :: rest) g u d =
          (kv.2.players.filter (fun pv => pv.1 == u)).length + memCount rest g u d := by
        simp [memCount, List.filter_cons, hp]
      rw [hstep, hzero]
      omega
    · have hp2 : (kv.1 == g && kv.2.date == d) = false := by
        simpa using hp
      have hstep : memCount (kv :: rest) g u d = memCount rest g u d := by
        simp [memCount, List.filter_cons, hp2]
      rw [hstep]
      exact ih hminv

theorem memComplete_memComplete (m : List (String × GuildState))
    (w1 w2 : CompletionWrite) (hg : w1.guildId = w2.guildId)
    (hu : w1.userId = w2.userId) (hd : w1.date = w2.date) :
    memComplete (memComplete m w1) w2 = memComplete m w2 := by
  simp only [memComplete, hg, hu, hd]
  cases hL : lookupA m w2.guildId with
  | none =>
    simp [hL, insertA_insertA]
  | some g0 =>
    by_cases hdate : g0.date = w2.date
    · simp [hL, hdate, insertA_insertA]
    · simp [hL, hdate, insertA_insertA]

/-- Claim C7: the completion ledger holds at most one record per
`(roomId, userId, puzzleReferenceDate)` after any sequence of completion
writes, and a second write for the same key turns the first record into the
second in place rather than appending — in the database path (the
`INSERT ... ON DUPLICATE KEY UPDATE` against the unique key) and in the
in-memory fallback path alike. -/
theorem completion_ledger_upsert (ws : List CompletionWrite)
    (k : String × String × String) (g u d : String) :
    dbCount (dbApply ws) k ≤ 1 ∧
    memCount (memApply ws) g u d ≤ 1 ∧
    (∀ table w1 w2, rowKey (rowOf w1) = rowKey (rowOf w2) →
      dbUpsert (dbUpsert table (rowOf w1)) (rowOf w2) = dbUpsert table (rowOf w2)) ∧
    (∀ m2 w1 w2, w1.guildId = w2.guildId → w1.userId = w2.userId →
      w1.date = w2.date →
      memComplete (memComplete m2 w1) w2 = memComplete m2 w2) := by
  refine ⟨?_, ?_, ?_, ?_⟩
  · exact dbCount_le_one (dbKeysDistinct_foldl ws [] (by simp [dbKeysDistinct])) k
  · exact memCount_le_one (memInvariant_foldl ws [] (by simp [memInvariant])) g u d
  · intro table w1 w2 hk
    exact dbUpsert_dbUpsert table (rowOf w1) (rowOf w2) hk
  · intro m2 w1 w2 hg hu hd
    exact memComplete_memComplete m2 w1 w2 hg hu hd

/-- A completion payload for the witness. -/
def wA : CompletionWrite :=
  { guildId := "G", date := "2025-10-02", userId := "u1", username := "Alice",
    avatar := "av", score := 3, mistakes := 4,
    guessHistory := [gC0, gC1, gC2, gWrong], now := 10 }

/-- A re-completion of the same player, same day, with different data. -/
def wB : CompletionWrite :=
  { guildId := "G", date := "2025-10-02", userId := "u1", username := "Alice",
    avatar := "av", score := 4, mistakes := 0,
    guessHistory := [gC0, gC1, gC2, gC3], now := 20 }

/-- Witness for the C7 theorem: both the table and the in-memory store hold
one record for the key after two writes, and the double write collapses to
the second in both paths. -/
theorem completion_ledger_upsert_witness :
    dbCount (dbApply [wA, wB]) ("G", "u1", "2025-10-02") ≤ 1 ∧
    memCount (memApply [wA, wB]) "G" "u1" "2025-10-02" ≤ 1 ∧
    dbUpsert (dbUpsert [] (rowOf wA)) (rowOf wB) = dbUpsert [] (rowOf wB) ∧
    memComplete (memComplete [] wA) wB = memComplete [] wB := by
  refine ⟨?_, ?_, ?_, ?_⟩
  · exact (completion_ledger_upsert [wA, wB] ("G", "u1", "2025-10-02")
      "G" "u1" "2025-10-02").1
  · exact (completion_ledger_upsert [wA, wB] ("G", "u1", "2025-10-02")
      "G" "u1" "2025-10-02").2.1
  · exact (completion_ledger_upsert [] ("G", "u1", "2025-10-02")
      "G" "u1" "2025-10-02").2.2.1 [] wA wB (by decide)
  · exact (completion_ledger_upsert [] ("G", "u1", "2025-10-02")
      "G" "u1" "2025-10-02").2.2.2 [] wA wB (by decide) (by decide) (by decide)

/-! ## C9: alias key parsing at the update endpoint -/

/-- Characters before the first underscore. -/
def firstTokC (cs : List Char) : List Char :=
  cs.takeWhile (fun c => !(c == '_'))

/-- Characters between the first and the second underscore (everything up to
the next underscore after dropping through the first one). -/
def secondTokC (cs : List Char) : List Char :=
  firstTokC ((cs.dropWhile (fun c => !(c == '_'))).tail)

theorem splitU_ne_nil (cs : List Char) : splitU cs ≠ [] := by
  cases cs with
  | nil => simp [splitU]
  | cons c rest =>
    simp only [splitU]
    by_cases h : c = '_' <;> simp [h]

theorem headD_splitU (cs : List Char) : (splitU cs).headD [] = firstTokC cs := by
  induction cs with
  | nil => rfl
  | cons c rest ih =>
    by_cases h : c = '_'
    · simp [splitU, firstTokC, List.takeWhile_cons, h]
    · simp only [splitU, if_neg h, List.headD_cons, firstTokC, List.takeWhile_cons]
      have hb : (!(c == '_')) = true := by simp [h]
      rw [hb]
      simp only [if_true]
      rw [ih]
      rfl

theorem splitU_append (xs ys : List Char) (hx : '_' ∉ xs) :
    splitU (xs ++ '_' :: ys) = xs :: splitU ys := by
  induction xs with
  | nil => simp [splitU]
  | cons x xs ih =>
    simp only [List.mem_cons, not_or] at hx
    have hx1 : ¬ x = '_' := fun hc => hx.1 hc.symm
    simp only [List.cons_append, splitU, if_neg hx1, List.append_eq, ih hx.2,
      List.headD_cons, List.tail_cons]

theorem takeWhile_append_sep (xs ys : List Char) :
    (xs ++ '_' :: ys).takeWhile (fun c => !(c == '_')) =
      xs.takeWhile (fun c => !(c == '_')) := by
  induction xs with
  | nil => simp [List.takeWhile_cons]
  | cons x xs ih =>
    by_cases h : x = '_'
    · simp [List.takeWhile_cons, h]
    · simp [List.takeWhile_cons, h, ih]

theorem decompose_at_underscore (cs : List Char) (h : '_' ∈ cs) :
    cs = cs.takeWhile (fun c => !(c == '_')) ++
      '_' :: (cs.dropWhile (fun c => !(c == '_'))).tail := by
  induction cs with
  | nil => cases h
  | cons c rest ih =>
    by_cases hc : c = '_'
    · subst hc
      simp [List.takeWhile_cons, List.dropWhile_cons]
    · have hr : '_' ∈ rest := by
        rcases List.mem_cons.1 h with h1 | h1
        · exact absurd h1.symm hc
        · exact h1
      have hb : (!(c == '_')) = true := by simp [hc]
      simp only [List.takeWhile_cons, List.dropWhile_cons, hb, if_true,
        List.cons_append]
      exact congrArg (c :: ·) (ih hr)

theorem userSessionKey_data (g u d : String) :
    (userSessionKey g u d).data = g.data ++ '_' :: (u.data ++ '_' :: d.data) := by
  show (g ++ "_" ++ u ++ "_" ++ d).data = _
  simp [String.data_append, List.append_assoc]

/-- What `userSessionId.split("_")[1]` actually extracts from a key built as
`guildId_userId_date`: the second underscore-token of `guildId` when
`guildId` contains an underscore, else the first underscore-token of
`userId`. -/
theorem extractUserId_userSessionKey (g u d : String) :
    extractUserId (userSessionKey g u d) =
      if '_' ∈ g.data then String.mk (secondTokC g.data)
      else String.mk (firstTokC u.data) := by
  unfold extractUserId
  rw [userSessionKey_data]
  by_cases hg : '_' ∈ g.data
  · rw [if_pos hg]
    have hna : '_' ∉ g.data.takeWhile (fun c => !(c == '_')) := by
      intro hmem
      have := List.mem_takeWhile_imp hmem
      simp at this
    conv_lhs => rw [decompose_at_underscore g.data hg]
    rw [List.append_assoc, List.cons_append]
    rw [splitU_append _ _ hna]
    obtain ⟨t, ts, hts⟩ := List.exists_cons_of_ne_nil
      (splitU_ne_nil ((g.data.dropWhile (fun c => !(c == '_'))).tail ++
        '_' :: (u.data ++ '_' :: d.data)))
    rw [hts]
    simp only [List.getD_cons_succ, List.getD_cons_zero]
    have hhead := headD_splitU ((g.data.dropWhile (fun c => !(c == '_'))).tail ++
      '_' :: (u.data ++ '_' :: d.data))
    rw [hts] at hhead
    simp only [List.headD_cons] at hhead
    rw [hhead]
    unfold firstTokC
    rw [takeWhile_append_sep]
    rfl
  · rw [if_neg hg]
    rw [splitU_append _ _ hg]
    obtain ⟨t, ts, hts⟩ := List.exists_cons_of_ne_nil
      (splitU_ne_nil (u.data ++ '_' :: d.data))
    rw [hts]
    simp only [List.getD_cons_succ, List.getD_cons_zero]
    have hhead := headD_splitU (u.data ++ '_' :: d.data)
    rw [hts] at hhead
    simp only [List.headD_cons] at hhead
    rw [hhead]
    unfold firstTokC
    rw [takeWhile_append_sep]

/-- Claim C9 counterexample: the claim is false in both directions at
concrete inputs. With `guildId = "a_b"` (which contains an underscore) and
`userId = "b"`, the extracted token is exactly the joining player's id, so
an underscore in the guild id does not imply a wrong extraction, and
underscore-freedom of the guild id is not necessary for a correct one.
Conversely, with an underscore-free `guildId = "g"` but `userId = "u_v"`,
the extraction is wrong, so underscore-freedom of the guild id alone is not
sufficient either. -/
theorem update_alias_key_parsing_counterexample :
    ('_' ∈ ("a_b" : String).data ∧
      extractUserId (userSessionKey "a_b" "b" "2025-10-02") = "b") ∧
    ('_' ∉ ("g" : String).data ∧ '_' ∈ ("u_v" : String).data ∧
      extractUserId (userSessionKey "g" "u_v" "2025-10-02") ≠ "u_v") := by
  decide

/-- Claim C9 (amended): the update endpoint takes the second
underscore-separated token of the alias key. For a key built at join as
`guildId_userId_date` this token is the second underscore-token of `guildId`
when `guildId` contains an underscore, and the first underscore-token of
`userId` otherwise; hence the update targets the joining player whenever
neither `guildId` nor `userId` contains an underscore, while in general an
underscore in `guildId` redirects the lookup to a guild-id fragment (which
coincides with the joining player's id only by accident). -/
theorem update_alias_key_parsing (g u d : String) :
    ('_' ∉ g.data → '_' ∉ u.data →
      extractUserId (userSessionKey g u d) = u) ∧
    ('_' ∉ g.data →
      extractUserId (userSessionKey g u d) = String.mk (firstTokC u.data)) ∧
    ('_' ∈ g.data →
      extractUserId (userSessionKey g u d) = String.mk (secondTokC g.data)) := by
  refine ⟨?_, ?_, ?_⟩
  · intro hg hu
    rw [extractUserId_userSessionKey, if_neg hg]
    have : firstTokC u.data = u.data := by
      unfold firstTokC
      rw [List.takeWhile_eq_self_iff.2]
      intro a ha
      simp only [Bool.not_eq_eq_eq_not, Bool.not_true, beq_eq_false_iff_ne]
      exact fun hc => hu (hc ▸ ha)
    rw [this]
  · intro hg
    rw [extractUserId_userSessionKey, if_neg hg]
  · intro hg
    rw [extractUserId_userSessionKey, if_pos hg]

/-- Witness for the C9 theorem: underscore-free guild and user ids extract
the joining player's id exactly. -/
theorem update_alias_key_parsing_witness :
    extractUserId (userSessionKey "guild" "user1" "2025-10-02") = "user1" := by
  exact (update_alias_key_parsing "guild" "user1" "2025-10-02").1
    (by decide) (by decide)

/-! ## C5: guess classification -/

theorem puzzle_members_length {categories : List Category}
    (hinv : puzzleInvariant categories) {c : Category} (hc : c ∈ categories) :
    c.members.length = 4 := hinv.2.1 c hc

theorem puzzle_members_nodup {categories : List Category}
    (hinv : puzzleInvariant categories) {c : Category} (hc : c ∈ categories) :
    c.members.Nodup :=
  (List.nodup_flatten.1 hinv.2.2).1 c.members
    (List.mem_map_of_mem Category.members hc)

theorem mem_iff_of_subset_of_len {A B : List String} (hA : A.Nodup)
    (hB : B.Nodup) (hlA : A.length = 4) (hlB : B.length = 4)
    (hsub : ∀ m ∈ A, m ∈ B) : ∀ m, m ∈ A ↔ m ∈ B := by
  have hsubF : A.toFinset ⊆ B.toFinset := by
    intro x hx
    rw [List.mem_toFinset] at hx ⊢
    exact hsub x hx
  have hcards : B.toFinset.card ≤ A.toFinset.card := by
    rw [List.toFinset_card_of_nodup hA, List.toFinset_card_of_nodup hB, hlA, hlB]
  have heq : A.toFinset = B.toFinset := Finset.eq_of_subset_of_card_le hsubF hcards
  intro m
  constructor
  · exact hsub m
  · intro hm
    have hm2 : m ∈ A.toFinset := heq ▸ List.mem_toFinset.2 hm
    exact List.mem_toFinset.1 hm2

theorem containing_category_unique {categories : List Category}
    (hinv : puzzleInvariant categories) {words : List String}
    (hw : words.length = 4) {c1 c2 : Category} (h1 : c1 ∈ categories)
    (h2 : c2 ∈ categories) (hm1 : ∀ m ∈ c1.members, m ∈ words)
    (hm2 : ∀ m ∈ c2.members, m ∈ words) : c1 = c2 := by
  have hn1 := puzzle_members_nodup hinv h1
  have hn2 := puzzle_members_nodup hinv h2
  have hl1 := puzzle_members_length hinv h1
  have hl2 := puzzle_members_length hinv h2
  have he1 : c1.members.toFinset = words.toFinset := by
    refine Finset.eq_of_subset_of_card_le ?_ ?_
    · intro x hx
      rw [List.mem_toFinset] at hx ⊢
      exact hm1 x hx
    · rw [List.toFinset_card_of_nodup hn1, hl1]
      exact le_trans (List.toFinset_card_le words) (le_of_eq hw)
  have he2 : c2.members.toFinset = words.toFinset := by
    refine Finset.eq_of_subset_of_card_le ?_ ?_
    · intro x hx
      rw [List.mem_toFinset] at hx ⊢
      exact hm2 x hx
    · rw [List.toFinset_card_of_nodup hn2, hl2]
      exact le_trans (List.toFinset_card_le words) (le_of_eq hw)
  have hxex : ∃ x, x ∈ c1.members := by
    cases hmem : c1.members with
    | nil => rw [hmem] at hl1; simp at hl1
    | cons a l => exact ⟨a, hmem ▸ List.mem_cons_self a l⟩
  obtain ⟨x, hx1⟩ := hxex
  have hx2 : x ∈ c2.members := by
    have hxF : x ∈ c2.members.toFinset := by
      rw [he2, ← he1]
      exact List.mem_toFinset.2 hx1
    exact List.mem_toFinset.1 hxF
  have hpw : (categories.map Category.members).Pairwise List.Disjoint :=
    (List.nodup_flatten.1 hinv.2.2).2
  obtain ⟨i, hi⟩ := List.mem_iff_get.1 h1
  obtain ⟨j, hj⟩ := List.mem_iff_get.1 h2
  rcases Nat.lt_trichotomy i.val j.val with hlt | heq | hlt
  · exfalso
    have hd := List.pairwise_iff_getElem.1 hpw i.val j.val
      (by simpa using i.isLt) (by simpa using j.isLt) hlt
    rw [List.getElem_map, List.getElem_map] at hd
    have hgi : categories[i.val] = c1 := by rw [← List.get_eq_getElem]; exact hi
    have hgj : categories[j.val] = c2 := by rw [← List.get_eq_getElem]; exact hj
    rw [hgi, hgj] at hd
    exact hd hx1 hx2
  · have hij : i = j := Fin.ext heq
    rw [← hi, ← hj, hij]
  · exfalso
    have hd := List.pairwise_iff_getElem.1 hpw j.val i.val
      (by simpa using j.isLt) (by simpa using i.isLt) hlt
    rw [List.getElem_map, List.getElem_map] at hd
    have hgi : categories[i.val] = c1 := by rw [← List.get_eq_getElem]; exact hi
    have hgj : categories[j.val] = c2 := by rw [← List.get_eq_getElem]; exact hj
    rw [hgi, hgj] at hd
    exact hd hx2 hx1

theorem matched_pred_iff (solvedCategories : List Category)
    (selected : List String) (c : Category) :
    ((!(isSolvedCat solvedCategories c)) &&
        c.members.all (fun m => selected.contains m)) = true ↔
      (isSolvedCat solvedCategories c = false ∧ ∀ m ∈ c.members, m ∈ selected) := by
  simp [Bool.and_eq_true, List.all_eq_true, Bool.not_eq_true']

theorem classify_correct_iff_isSome (categories solvedCategories : List Category)
    (selected : List String) :
    (classifyGuess categories solvedCategories selected = .correct ↔
      (findMatchedCategory categories solvedCategories selected).isSome) := by
  unfold classifyGuess
  cases findMatchedCategory categories solvedCategories selected with
  | some c => simp
  | none =>
    by_cases hone : isOneAway categories solvedCategories selected <;> simp [hone]

/-- Claim C5: for a puzzle satisfying the partition invariant and a
submission of 4 distinct puzzle words, `handleSubmit` classifies the guess
correct exactly when the selected set equals the member set of some
not-yet-solved category, signals the near-miss exactly when it is not
correct and some not-yet-solved category has exactly 3 of its members
selected, and otherwise reports it plain incorrect — with exactly one of the
three outcomes holding. -/
theorem handleSubmit_classification (categories solvedCategories : List Category)
    (selected : List String) (hinv : puzzleInvariant categories)
    (hlen : selected.length = 4) (hnodup : selected.Nodup)
    (hwords : ∀ w ∈ selected, ∃ c ∈ categories, w ∈ c.members) :
    (classifyGuess categories solvedCategories selected = .correct ↔
      ∃ c ∈ categories, isSolvedCat solvedCategories c = false ∧
        ∀ m, m ∈ c.members ↔ m ∈ selected) ∧
    (classifyGuess categories solvedCategories selected = .oneAway ↔
      (classifyGuess categories solvedCategories selected ≠ .correct ∧
        ∃ c ∈ categories, isSolvedCat solvedCategories c = false ∧
          (c.members.filter (fun m => selected.contains m)).length = 3)) ∧
    ((classifyGuess categories solvedCategories selected = .correct ∨
      classifyGuess categories solvedCategories selected = .oneAway ∨
      classifyGuess categories solvedCategories selected = .plainIncorrect) ∧
     ¬(classifyGuess categories solvedCategories selected = .correct ∧
       classifyGuess categories solvedCategories selected = .oneAway) ∧
     ¬(classifyGuess categories solvedCategories selected = .correct ∧
       classifyGuess categories solvedCategories selected = .plainIncorrect) ∧
     ¬(classifyGuess categories solvedCategories selected = .oneAway ∧
       classifyGuess categories solvedCategories selected = .plainIncorrect)) := by
  have hsome : (findMatchedCategory categories solvedCategories selected).isSome ↔
      ∃ c ∈ categories, isSolvedCat solvedCategories c = false ∧
        ∀ m ∈ c.members, m ∈ selected := by
    unfold findMatchedCategory
    rw [List.find?_isSome]
    constructor
    · rintro ⟨c, hc, hp⟩
      exact ⟨c, hc, (matched_pred_iff solvedCategories selected c).1 hp⟩
    · rintro ⟨c, hc, hp⟩
      exact ⟨c, hc, (matched_pred_iff solvedCategories selected c).2 hp⟩
  refine ⟨?_, ?_, ?_⟩
  · rw [classify_correct_iff_isSome, hsome]
    constructor
    · rintro ⟨c, hc, hsolved, hsub⟩
      exact ⟨c, hc, hsolved, mem_iff_of_subset_of_len
        (puzzle_members_nodup hinv hc) hnodup
        (puzzle_members_length hinv hc) hlen hsub⟩
    · rintro ⟨c, hc, hsolved, hiff⟩
      exact ⟨c, hc, hsolved, fun m hm => (hiff m).1 hm⟩
  · have honeaway : isOneAway categories solvedCategories selected = true ↔
        ∃ c ∈ categories, isSolvedCat solvedCategories c = false ∧
          (c.members.filter (fun m => selected.contains m)).length = 3 := by
      unfold isOneAway
      rw [List.any_eq_true]
      constructor
      · rintro ⟨c, hc, hp⟩
        simp only [Bool.and_eq_true, Bool.not_eq_true', beq_iff_eq] at hp
        exact ⟨c, hc, hp.1, hp.2⟩
      · rintro ⟨c, hc, h1, h2⟩
        refine ⟨c, hc, ?_⟩
        simp only [Bool.and_eq_true, Bool.not_eq_true', beq_iff_eq]
        exact ⟨h1, h2⟩
    have hclassify_one : classifyGuess categories solvedCategories selected =
        .oneAway ↔
        (findMatchedCategory categories solvedCategories selected = none ∧
          isOneAway categories solvedCategories selected = true) := by
      unfold classifyGuess
      cases hf : findMatchedCategory categories solvedCategories selected with
      | some c => simp
      | none =>
        by_cases hone : isOneAway categories solvedCategories selected <;>
          simp [hone]
    have hnone_iff : findMatchedCategory categories solvedCategories selected =
        none ↔ classifyGuess categories solvedCategories selected ≠ .correct := by
      rw [ne_eq, classify_correct_iff_isSome]
      cases findMatchedCategory categories solvedCategories selected <;> simp
    exact hclassify_one.trans (and_congr hnone_iff honeaway)
  · cases hc : classifyGuess categories solvedCategories selected <;> simp

/-- The demo puzzle of the spec's concrete scenario 1. -/
def demoCats : List Category :=
  [{ group := "EASY", members := ["A", "B", "C", "D"], difficulty := 0 },
   { group := "MED", members := ["E", "F", "G", "H"], difficulty := 1 },
   { group := "HARD", members := ["I", "J", "K", "L"], difficulty := 2 },
   { group := "EXTRA", members := ["M", "N", "O", "P"], difficulty := 3 }]

/-- Witness for the C5 theorem: on the demo puzzle with nothing solved yet,
`[A,B,C,D]` is classified correct. -/
theorem handleSubmit_classification_witness :
    classifyGuess demoCats [] ["A", "B", "C", "D"] = .correct := by
  refine (handleSubmit_classification demoCats [] ["A", "B", "C", "D"]
    (by unfold puzzleInvariant; decide) (by decide) (by decide)
    (by decide)).1.mpr ?_
  exact ⟨{ group := "EASY", members := ["A", "B", "C", "D"], difficulty := 0 },
    by decide, by decide, fun m => Iff.rfl⟩

/-! ## C10: state restoration replay round-trip -/

/-- The category recorded for a replayed correct guess: the first category
all of whose members appear in the guessed words. -/
def replayFound (gameData : List Category) (g : Guess) : Option Category :=
  if g.correct = true then
    gameData.find? (fun cat => cat.members.all (fun m => g.words.contains m))
  else none

theorem foldl_replayGuess (gameData : List Category) (s : ClientState)
    (hs : List Guess) :
    hs.foldl (replayGuess gameData) s =
      { s with
        guessHistory := s.guessHistory ++ hs,
        mistakes := s.mistakes + mistakeCount hs,
        solvedCategories := s.solvedCategories ++
          hs.filterMap (replayFound gameData) } := by
  induction hs generalizing s with
  | nil =>
    cases s
    simp [mistakeCount]
  | cons g hs ih =>
    rw [List.foldl_cons, ih]
    unfold replayGuess
    by_cases hgc : g.correct = true
    · rw [if_pos hgc]
      have hmc : mistakeCount (g :: hs) = mistakeCount hs := by
        simp [mistakeCount, List.filter_cons, hgc]
      cases hf : gameData.find?
          (fun cat => cat.members.all (fun m => g.words.contains m)) with
      | some cat =>
        have hfm : (g :: hs).filterMap (replayFound gameData) =
            cat :: hs.filterMap (replayFound gameData) := by
          rw [List.filterMap_cons]
          unfold replayFound
          rw [if_pos hgc, hf]
        cases s
        rw [hfm, hmc]
        dsimp only
        simp [List.append_assoc]
      | none =>
        have hfm : (g :: hs).filterMap (replayFound gameData) =
            hs.filterMap (replayFound gameData) := by
          rw [List.filterMap_cons]
          unfold replayFound
          rw [if_pos hgc, hf]
        cases s
        rw [hfm, hmc]
        dsimp only
        simp [List.append_assoc]
    · rw [if_neg hgc]
      have hgc2 : g.correct = false := by simpa using hgc
      have hmc : mistakeCount (g :: hs) = mistakeCount hs + 1 := by
        simp [mistakeCount, List.filter_cons, hgc2]
      have hfm : (g :: hs).filterMap (replayFound gameData) =
          hs.filterMap (replayFound gameData) := by
        rw [List.filterMap_cons]
        unfold replayFound
        rw [if_neg hgc]
      cases s
      rw [hfm, hmc]
      dsimp only
      simp [List.append_assoc, Nat.add_comm, Nat.add_assoc, Nat.add_left_comm]

theorem mem_filterMap_replayFound {gameData : List Category}
    (hinv : puzzleInvariant gameData) {h : List Guess}
    (hwords : ∀ g ∈ h, g.words.length = 4) (cat : Category) :
    cat ∈ h.filterMap (replayFound gameData) ↔
      (cat ∈ gameData ∧ ∃ g ∈ h, g.correct = true ∧
        ∀ m ∈ cat.members, m ∈ g.words) := by
  rw [List.mem_filterMap]
  constructor
  · rintro ⟨g, hg, hf⟩
    unfold replayFound at hf
    by_cases hgc : g.correct = true
    · rw [if_pos hgc] at hf
      have hmem := List.mem_of_find?_eq_some hf
      have hp := List.find?_some hf
      simp only [List.all_eq_true] at hp
      refine ⟨hmem, g, hg, hgc, fun m hm => ?_⟩
      have := hp m hm
      simpa using this
    · rw [if_neg hgc] at hf
      cases hf
  · rintro ⟨hcat, g, hg, hgc, hsub⟩
    refine ⟨g, hg, ?_⟩
    unfold replayFound
    rw [if_pos hgc]
    have hex : ∃ c ∈ gameData,
        (c.members.all (fun m => g.words.contains m)) = true :=
      ⟨cat, hcat, by simp only [List.all_eq_true]; intro m hm; simpa using hsub m hm⟩
    have hissome : (gameData.find?
        (fun cat => cat.members.all (fun m => g.words.contains m))).isSome := by
      rw [List.find?_isSome]
      obtain ⟨c, hc, hp⟩ := hex
      exact ⟨c, hc, hp⟩
    obtain ⟨c2, hc2⟩ := Option.isSome_iff_exists.1 hissome
    have hc2mem := List.mem_of_find?_eq_some hc2
    have hc2p := List.find?_some hc2
    simp only [List.all_eq_true] at hc2p
    have hc2sub : ∀ m ∈ c2.members, m ∈ g.words := by
      intro m hm
      simpa using hc2p m hm
    have : c2 = cat :=
      containing_category_unique hinv (hwords g hg) hc2mem hcat hc2sub hsub
    rw [hc2, this]

/-- Claim C10: for a loaded puzzle satisfying the partition invariant and a
history of 4-word guesses replayed into a not-yet-game-over client state,
`restoreFromGuessHistory(h)` leaves `guessHistory` equal to `h`, `mistakes`
equal to the number of incorrect guesses of `h`, `solvedCategories`
containing exactly the puzzle categories all of whose members appear in some
correct guess of `h`, and `isGameOver` true exactly when 4 categories are
recorded solved or the mistake count reaches `maxMistakes` — replaying a
recorded history reproduces the derived score, mistakes and game-over state
of the original play. -/
theorem restoreFromGuessHistory_replay (gameData : List Category)
    (st : ClientState) (h : List Guess) (hinv : puzzleInvariant gameData)
    (hwords : ∀ g ∈ h, g.words.length = 4) (hfresh : st.isGameOver = false) :
    (restoreFromGuessHistory gameData st h).guessHistory = h ∧
    (restoreFromGuessHistory gameData st h).mistakes = mistakeCount h ∧
    (∀ cat, cat ∈ (restoreFromGuessHistory gameData st h).solvedCategories ↔
      (cat ∈ gameData ∧ ∃ g ∈ h, g.correct = true ∧
        ∀ m ∈ cat.members, m ∈ g.words)) ∧
    ((restoreFromGuessHistory gameData st h).isGameOver = true ↔
      ((restoreFromGuessHistory gameData st h).solvedCategories.length = 4 ∨
        (restoreFromGuessHistory gameData st h).mistakes ≥
          (restoreFromGuessHistory gameData st h).maxMistakes)) := by
  unfold restoreFromGuessHistory
  dsimp only
  rw [foldl_replayGuess]
  cases st with
  | mk selectedWords solvedCategories guessHistory mistakes maxMistakes
      isGameOver hasPlayed =>
    simp only at hfresh
    subst hfresh
    by_cases hcond : ((h.filterMap (replayFound gameData)).length == 4 ||
        decide (mistakeCount h ≥ maxMistakes)) = true
    · simp only [List.nil_append, List.append_nil, Nat.zero_add, hcond, if_pos]
      simp only [Bool.or_eq_true, beq_iff_eq, decide_eq_true_eq] at hcond
      refine ⟨by simp, by simp, ?_, ?_⟩
      · intro cat
        simpa using mem_filterMap_replayFound hinv hwords cat
      · simpa using hcond
    · simp only [List.nil_append, List.append_nil, Nat.zero_add, hcond, if_neg,
        Bool.not_eq_true]
      simp only [Bool.or_eq_true, beq_iff_eq, decide_eq_true_eq, not_or] at hcond
      refine ⟨by simp, by simp, ?_, ?_⟩
      · intro cat
        simpa using mem_filterMap_replayFound hinv hwords cat
      · simp only [Bool.false_eq_true, false_iff, not_or]
        exact ⟨hcond.1, hcond.2⟩

/-- The client state as the module initializes it (empty progress, mistake
budget 4, game not over). -/
def initialClientState : ClientState :=
  { selectedWords := [], solvedCategories := [], guessHistory := [],
    mistakes := 0, maxMistakes := 4, isGameOver := false, hasPlayed := false }

/-- Witness for the C10 theorem: replaying one correct and one incorrect
guess of the demo puzzle restores that history with one mistake. -/
theorem restoreFromGuessHistory_replay_witness :
    (restoreFromGuessHistory demoCats initialClientState [gC0, gWrong]).guessHistory =
      [gC0, gWrong] ∧
    (restoreFromGuessHistory demoCats initialClientState [gC0, gWrong]).mistakes =
      mistakeCount [gC0, gWrong] := by
  have hmain := restoreFromGuessHistory_replay demoCats initialClientState
    [gC0, gWrong] (by unfold puzzleInvariant; decide) (by decide) rfl
  exact ⟨hmain.1, hmain.2.1⟩

end Connections
